import Mathlib

/-!
Verification of the Authority Realization Engine (ARE) core, a governance
compiler written in Go.  The development below is a shallow embedding of the
Go sources: `core/air.go` (data model), `core/runtime_interface.go` (the
runtime query reader), the validator (`ValidateAirWithErrors` and friends)
and the compiler pipeline (`Normalize`, `ResolveConflicts`, `EmitProof`,
`ProcessWithContext`).

Modelling conventions:
* Go `string`-backed enums (`AuthorityType`, `ClaimType`, `EdgeType`) are
  plain `String`s, as in the source, so that invalid values remain
  representable.
* `time.Time` values are `Int` instants; `*time.Time` is `Option Int`.
* Go maps are association lists with insert-replace semantics; a nil map is
  `Option.none` where the nil/empty distinction is observable
  (`AuthorityGraph.Nodes`).
* `interface{}` values reachable from source metadata are the inductive
  `GoVal`.
* Nondeterministic inputs (`uuid.New()`, `time.Now()`) are threaded as
  explicit arguments.
* A `context.Context` is modelled by the boolean answers of `ctx.Err()` at
  the two points where the pipeline samples it.
* Machine integers are `Int`/`Nat`; no value in the modelled code can
  overflow in the scenarios of interest (counters are list lengths).
-/

/-- Dynamic Go values (`interface{}`) as they occur inside source metadata:
strings, `[]interface{}` slices, `map[string]interface{}` records, or
anything else (which every type assertion in the source rejects). -/
inductive GoVal where
  | vstr (s : String)
  | vlist (xs : List GoVal)
  | vdict (fields : List (String × GoVal))
  | vother
deriving Repr

/-- Lookup in a `map[string]interface{}` (first binding wins; the Go maps
never carry duplicate keys). -/
def dictLookup (d : List (String × GoVal)) (k : String) : Option GoVal :=
  match d with
  | [] => none
  | (k', v) :: rest => if k' = k then some v else dictLookup rest k

/-- `Scope` from `core/air.go`: jurisdictions, optional time bounds,
operations. -/
structure Scope where
  jurisdictions : List String
  timeStart : Option Int
  timeEnd : Option Int
  operations : List String
deriving Repr

/-- `Claim` from `core/air.go`.  `type_` is the Go `ClaimType` string;
`conditions` is the nilable `map[string]interface{}`. -/
structure Claim where
  id : String
  type_ : String
  subject : String
  action : String
  resource : String
  scope : Scope
  conditions : Option (List (String × GoVal))
  sourceId : String
deriving Repr

/-- `AuthoritySource` from `core/air.go`. -/
structure AuthoritySource where
  id : String
  type_ : String
  name : String
  description : String
  version : String
  metadata : List (String × GoVal)
deriving Repr

/-- `Edge` from `core/air.go`. -/
structure Edge where
  fromId : String
  toId : String
  edgeType : String
deriving Repr, DecidableEq

/-- `AuthorityGraph` from `core/air.go`.  `nodes` is `none` exactly when the
Go `Nodes` map is nil (a state the validator must reject). -/
structure AuthorityGraph where
  nodes : Option (List (String × Claim))
  edges : List Edge
deriving Repr

/-- `AuthorityArtifact` from `core/air.go` (the `sync.RWMutex` field carries
no data and is dropped). -/
structure AuthorityArtifact where
  id : String
  sourceId : String
  claims : List Claim
  graph : AuthorityGraph
  generatedAt : Int
deriving Repr

/-- The zero value `AuthorityArtifact{}` that Go returns beside every error. -/
def zeroArtifact : AuthorityArtifact :=
  { id := "", sourceId := "", claims := [],
    graph := { nodes := none, edges := [] }, generatedAt := 0 }

/-- `AuthorityTypeOrder` from `core/air.go`, including the Go map's zero
default for unknown types. -/
def authorityTypeOrder (t : String) : Int :=
  if t = "sovereign" then 0
  else if t = "legal" then 1
  else if t = "regulatory" then 2
  else if t = "organizational" then 3
  else if t = "contractual" then 4
  else 0

/-- `IsValidClaimType` from `core/air.go`. -/
def isValidClaimType (t : String) : Bool :=
  t = "permission" || t = "prohibition" || t = "obligation" || t = "delegation"

/-- Character-level lexicographic `<` on strings, matching Go's byte-wise
string ordering on the ASCII identifiers appearing in the sources. -/
def charsLt : List Char → List Char → Bool
  | [], [] => false
  | [], _ :: _ => true
  | _ :: _, [] => false
  | a :: as, b :: bs => if a < b then true else if b < a then false else charsLt as bs

def strLtB (a b : String) : Bool := charsLt a.toList b.toList

def strLeB (a b : String) : Bool := !(strLtB b a)

/-- Insert into a sorted list (stable: an element is placed before later
equal elements). -/
def insertSorted (le : α → α → Bool) (x : α) : List α → List α
  | [] => [x]
  | y :: ys => if le x y then x :: y :: ys else y :: insertSorted le x ys

/-- Stable insertion sort, modelling the deterministic ascending sorts the
Go code performs (`sort.Strings`, `sort.Slice` with a total key). -/
def sortBy (le : α → α → Bool) : List α → List α
  | [] => []
  | x :: xs => insertSorted le x (sortBy le xs)

theorem mem_insertSorted (le : α → α → Bool) (x a : α) (l : List α) :
    a ∈ insertSorted le x l ↔ a = x ∨ a ∈ l := by
  induction l with
  | nil => simp [insertSorted]
  | cons y ys ih =>
    simp only [insertSorted]
    split
    · simp [List.mem_cons]
    · simp only [List.mem_cons, ih]
      tauto

theorem mem_sortBy (le : α → α → Bool) (a : α) (l : List α) :
    a ∈ sortBy le l ↔ a ∈ l := by
  induction l with
  | nil => simp [sortBy]
  | cons x xs ih => simp [sortBy, mem_insertSorted, ih]

/-- Go map insert (`m[k] = v`): replace the existing binding or append. -/
def mapInsert (m : List (String × Claim)) (k : String) (v : Claim) :
    List (String × Claim) :=
  match m with
  | [] => [(k, v)]
  | (k', v') :: rest =>
    if k' = k then (k, v) :: rest else (k', v') :: mapInsert rest k v

/-- Go map read (`m[k]`), `none` for a missing key. -/
def mapLookup (m : List (String × Claim)) (k : String) : Option Claim :=
  match m with
  | [] => none
  | (k', v) :: rest => if k' = k then some v else mapLookup rest k

theorem mapLookup_insert_isSome (m : List (String × Claim)) (k k' : String)
    (v : Claim) :
    (mapLookup (mapInsert m k v) k').isSome =
      ((mapLookup m k').isSome || (k' = k)) := by
  induction m with
  | nil =>
    simp only [mapInsert, mapLookup]
    by_cases h : k = k'
    · subst h; simp
    · have h' : ¬ (k' = k) := fun hh => h hh.symm
      simp [h, h']
  | cons p rest ih =>
    obtain ⟨pk, pv⟩ := p
    simp only [mapInsert]
    by_cases h1 : pk = k
    · subst h1
      simp only [if_pos rfl, mapLookup]
      by_cases h2 : pk = k'
      · subst h2; simp
      · have hne : ¬ (k' = pk) := fun hh => h2 hh.symm
        simp [h2, hne]
    · simp only [if_neg h1, mapLookup]
      by_cases h2 : pk = k'
      · subst h2; simp
      · simp [h2, ih]

/-- ASCII decimal digit test, as in the `\d` class of `semverRegex`. -/
def isDigitCh (c : Char) : Bool := '0' ≤ c && c ≤ '9'

/-- Character class `[0-9A-Za-z-]` of the pre-release/build part of
`semverRegex`. -/
def isIdentCh (c : Char) : Bool :=
  isDigitCh c || ('a' ≤ c && c ≤ 'z') || ('A' ≤ c && c ≤ 'Z') || c = '-'

/-- Split a leading run of digits from the input. -/
def takeDigits : List Char → List Char × List Char
  | [] => ([], [])
  | c :: cs =>
    if isDigitCh c then
      let (d, r) := takeDigits cs
      (c :: d, r)
    else ([], c :: cs)

def natOfDigits (ds : List Char) : Nat :=
  ds.foldl (fun n c => n * 10 + (c.toNat - 48)) 0

mutual
/-- `[0-9A-Za-z-]+(\.[0-9A-Za-z-]+)*`: one or more dot-separated nonempty
identifier components. -/
def dottedOk : List Char → Bool
  | [] => false
  | c :: cs => if isIdentCh c then dottedTail cs else false

/-- Continuation of `dottedOk` after at least one identifier character. -/
def dottedTail : List Char → Bool
  | [] => true
  | c :: cs => if c = '.' then dottedOk cs else if isIdentCh c then dottedTail cs else false
end

/-- Split the input at the first `'+'`, if any (pre-release identifiers
cannot contain `'+'`). -/
def splitAtPlusChar : List Char → List Char × Option (List Char)
  | [] => ([], none)
  | c :: cs =>
    if c = '+' then ([], some cs)
    else
      let (a, b) := splitAtPlusChar cs
      (c :: a, b)

/-- The optional `-prerelease` / `+build` tail of `semverRegex`, anchored at
the end of the string. -/
def versionTailOk (cs : List Char) : Bool :=
  match cs with
  | [] => true
  | c :: rest =>
    if c = '-' then
      let (pre, build) := splitAtPlusChar rest
      dottedOk pre && (match build with | none => true | some b => dottedOk b)
    else if c = '+' then dottedOk rest
    else false

/-- The numeric core `(\d+)(?:\.(\d+))?(?:\.(\d+))?` of `semverRegex`:
major, minor, patch (absent components are 0, as in `parseVersion`), plus
the unconsumed remainder. -/
def parseVerCore (cs : List Char) : Option (Nat × Nat × Nat × List Char) :=
  let (d1, r1) := takeDigits cs
  if d1.isEmpty then none
  else
    match r1 with
    | '.' :: r2 =>
      let (d2, r3) := takeDigits r2
      if d2.isEmpty then none
      else
        match r3 with
        | '.' :: r4 =>
          let (d3, r5) := takeDigits r4
          if d3.isEmpty then none
          else some (natOfDigits d1, natOfDigits d2, natOfDigits d3, r5)
        | _ => some (natOfDigits d1, natOfDigits d2, 0, r3)
    | _ => some (natOfDigits d1, 0, 0, r1)

/-- `parseVersion` from the compiler: empty or unparseable versions collapse
to `[0,0,0]`; an optional leading `v` is accepted. -/
def parseVersion (s : String) : List Int :=
  if s = "" then [0, 0, 0]
  else
    let cs := s.toList
    let cs := match cs with
      | 'v' :: rest => rest
      | other => other
    match parseVerCore cs with
    | none => [0, 0, 0]
    | some (ma, mi, pa, rest) =>
      if versionTailOk rest then [(ma : Int), (mi : Int), (pa : Int)]
      else [0, 0, 0]

/-- One component of a precedence key (`[]interface{}` entry): the compiler
stores `int`s and one `[]int` (the version triple); `comparePrecedenceKeys`
additionally has a `string` case. -/
inductive KeyElem where
  | kint (n : Int)
  | kints (ns : List Int)
  | kstr (s : String)
deriving Repr, DecidableEq

/-- `comparePrecedenceKeys` from the compiler, faithfully including its type
switch: `int` and `string` components are compared, while a component of any
other dynamic type — in particular the `[]int` version triple — matches no
case and is skipped. -/
def comparePrecedenceKeys : List KeyElem → List KeyElem → Int
  | [], b => if b.length > 0 then -1 else 0
  | _ :: _, [] => 1
  | a :: as, b :: bs =>
    match a with
    | .kint av =>
      match b with
      | .kint bv =>
        if av < bv then -1 else if av > bv then 1 else comparePrecedenceKeys as bs
      | _ => -1
    | .kstr av =>
      match b with
      | .kstr bv =>
        if strLtB av bv then -1 else if strLtB bv av then 1
        else comparePrecedenceKeys as bs
      | _ => 1
    | .kints _ => comparePrecedenceKeys as bs

/-- `getScopeSpecificity` from the compiler. -/
def getScopeSpecificity (scope : Scope) : Int :=
  (scope.jurisdictions.length : Int) + (scope.operations.length : Int)
    - (if scope.timeStart.isSome then 10 else 0)
    - (if scope.timeEnd.isSome then 10 else 0)

/-- One step of `getDelegationDepth`'s walk: the first edge whose `ToID` is
the current claim and whose type is `delegates`, if any. -/
def findDelegParent (edges : List Edge) (currentId : String) : Option String :=
  match edges with
  | [] => none
  | e :: rest =>
    if e.toId = currentId && e.edgeType = "delegates" then some e.fromId
    else findDelegParent rest currentId

/-- The loop of `getDelegationDepth`, walking incoming `delegates` edges
toward the root with a visited set; a revisit yields the sentinel 999.  The
walk visits a fresh id each iteration, so `edges.length + 1` iterations
always suffice; `fuel` makes that bound explicit. -/
def delegDepthLoop (edges : List Edge) : Nat → List String → String → Int → Int
  | 0, _, _, depth => depth
  | fuel + 1, visited, currentId, depth =>
    if visited.contains currentId then 999
    else
      match findDelegParent edges currentId with
      | none => depth
      | some parent => delegDepthLoop edges fuel (currentId :: visited) parent (depth + 1)

/-- `getDelegationDepth` from the compiler. -/
def getDelegationDepth (claim : Claim) (graph : AuthorityGraph) : Int :=
  delegDepthLoop graph.edges (graph.edges.length + 1) [] claim.id 0

/-- `precedenceKey` from the compiler: authority order, version triple
(stored as a `[]int`), delegation depth, negated scope specificity. -/
def precedenceKey (source : AuthoritySource) (claim : Claim)
    (graph : AuthorityGraph) : List KeyElem :=
  [.kint (authorityTypeOrder source.type_),
   .kints (parseVersion source.version),
   .kint (getDelegationDepth claim graph),
   .kint (-(getScopeSpecificity claim.scope))]

/-- Read of the compiler's `sources` table; a missing id yields the zero
`AuthoritySource` (Go map default). -/
def lookupSource (sources : List (String × AuthoritySource)) (k : String) :
    AuthoritySource :=
  match sources with
  | [] => { id := "", type_ := "", name := "", description := "",
            version := "", metadata := [] }
  | (k', v) :: rest => if k' = k then v else lookupSource rest k

/-- `applyPrecedence` from the compiler: `nil` for an empty group, otherwise
the head of the group sorted ascending by precedence key.  The sort is
modelled by a stable fold keeping the earliest minimal member, which is the
head the Go insertion sort produces on the small groups involved. -/
def applyPrecedence (sources : List (String × AuthoritySource))
    (graph : AuthorityGraph) (claims : List Claim) : Option Claim :=
  match claims with
  | [] => none
  | c :: rest =>
    some (rest.foldl
      (fun best x =>
        if comparePrecedenceKeys
            (precedenceKey (lookupSource sources x.sourceId) x graph)
            (precedenceKey (lookupSource sources best.sourceId) best graph) < 0
        then x else best) c)

/-- The value under `claim.Conditions[key]` when it is a string, mirroring
the `.(string)` assertions of `buildGraph`. -/
def condStr (c : Claim) (key : String) : Option String :=
  match c.conditions with
  | none => none
  | some d =>
    match dictLookup d key with
    | some (.vstr s) => some s
    | _ => none

/-- The edges contributed by one claim in `buildGraph`'s second pass, in
source order: `delegates_to`, `revokes`, `supersedes`, each only when the
referenced node exists. -/
def edgesOfClaim (nodes : List (String × Claim)) (c : Claim) : List Edge :=
  match c.conditions with
  | none => []
  | some _ =>
    (match condStr c "delegates_to" with
     | some t => if (mapLookup nodes t).isSome then
         [{ fromId := c.id, toId := t, edgeType := "delegates" }] else []
     | none => []) ++
    (match condStr c "revokes" with
     | some t => if (mapLookup nodes t).isSome then
         [{ fromId := c.id, toId := t, edgeType := "revokes" }] else []
     | none => []) ++
    (match condStr c "supersedes" with
     | some t => if (mapLookup nodes t).isSome then
         [{ fromId := c.id, toId := t, edgeType := "supersedes" }] else []
     | none => [])

/-- Ascending edge order used by `buildGraph`: `(FromID, ToID, EdgeType)`. -/
def edgeLe (a b : Edge) : Bool :=
  if a.fromId ≠ b.fromId then strLtB a.fromId b.fromId
  else if a.toId ≠ b.toId then strLtB a.toId b.toId
  else strLeB a.edgeType b.edgeType

/-- The first pass of `buildGraph`: insert every claim as a node. -/
def buildNodes (claims : List Claim) : List (String × Claim) :=
  claims.foldl (fun m c => mapInsert m c.id c) []

/-- `buildGraph` from the compiler: insert every claim as a node, add the
condition-referenced edges whose endpoints exist, sort edges. -/
def buildGraph (claims : List Claim) : AuthorityGraph :=
  let nodes := buildNodes claims
  let edges := claims.foldl (fun es c => es ++ edgesOfClaim nodes c) []
  { nodes := some nodes, edges := sortBy edgeLe edges }

/-- `applyRevocations` from the compiler: drop every claim whose id is the
target of a `revokes` edge of the artifact's current graph. -/
def applyRevocations (a : AuthorityArtifact) : AuthorityArtifact :=
  let revoked := (a.graph.edges.filter (fun e => e.edgeType = "revokes")).map (·.toId)
  { a with claims := a.claims.filter (fun c => !(revoked.contains c.id)) }

/-- `applySupersessions` from the compiler. -/
def applySupersessions (a : AuthorityArtifact) : AuthorityArtifact :=
  let superseded := (a.graph.edges.filter (fun e => e.edgeType = "supersedes")).map (·.toId)
  { a with claims := a.claims.filter (fun c => !(superseded.contains c.id)) }

/-- The conflict-group key `subject:action:resource` of `findConflicts`. -/
def claimKey (c : Claim) : String := c.subject ++ ":" ++ c.action ++ ":" ++ c.resource

/-- Whether a claim participates in conflict grouping (`findConflicts` skips
delegation and obligation claims). -/
def participatesInConflicts (c : Claim) : Bool :=
  !(c.type_ = "delegation" || c.type_ = "obligation")

/-- First-occurrence deduplication, reproducing the key set of the
`grouped` map of `findConflicts`. -/
def dedupStr : List String → List String
  | [] => []
  | s :: rest => if rest.contains s then dedupStr rest else s :: dedupStr rest

/-- `findConflicts` from the compiler: group the permission/prohibition
claims by `(subject, action, resource)` key, visit keys in sorted order, and
return every group with more than one member (the inner
`len(types) > 1 || len(group) > 1` test is always true there). -/
def findConflicts (claims : List Claim) : List (List Claim) :=
  let parts := claims.filter participatesInConflicts
  let keys := sortBy strLeB (dedupStr (parts.map claimKey))
  (keys.map (fun k => parts.filter (fun c => claimKey c = k))).filter
    (fun g => g.length > 1)

/-- The ids dropped after a conflict group is resolved: every member whose
id differs from the winner's. -/
def losingIds (group : List Claim) (winner : Claim) : List String :=
  (group.filter (fun x => x.id ≠ winner.id)).map (·.id)

/-- Error taxonomy of `core` (the dynamic `error` values the modelled code
produces), with enough structure to reproduce `Error()` strings. -/
inductive AREError where
  | cancelled
  | emptySourceID
  | nilGraph
  | cyclicGraph
  | invalidEdgeReference
  | validationErr (field : String) (msg : String) (wrapped : Option AREError)
  | conflictErr (claimIds : List String) (msg : String)
  | compilationErr (stage : String) (msg : String) (wrapped : Option AREError)
deriving Repr

/-- Go's `%v` rendering of a `[]string`, used by `ConflictError.Error()`. -/
def goStringSlice (ids : List String) : String :=
  "[" ++ String.intercalate " " ids ++ "]"

/-- The `Error()` string of each modelled error value. -/
def errMessage : AREError → String
  | .cancelled => "context canceled"
  | .emptySourceID => "source ID is empty"
  | .nilGraph => "graph nodes map is nil"
  | .cyclicGraph => "authority graph contains cycles"
  | .invalidEdgeReference => "edge references non-existent node"
  | .validationErr field msg none =>
    "validation error on " ++ field ++ ": " ++ msg
  | .validationErr field msg (some w) =>
    "validation error on " ++ field ++ ": " ++ msg ++ ": " ++ errMessage w
  | .conflictErr ids msg =>
    "conflict resolution failed for claims " ++ goStringSlice ids ++ ": " ++ msg
  | .compilationErr stage msg none =>
    "compilation error at " ++ stage ++ ": " ++ msg
  | .compilationErr stage msg (some w) =>
    "compilation error at " ++ stage ++ ": " ++ msg ++ ": " ++ errMessage w

/-- The conflict-resolution loop of `ResolveConflicts`: for each group pick
a winner (a `nil` winner aborts with the unresolvable-conflict error) and
drop the losing ids from the running claim list. -/
def resolveGroups (sources : List (String × AuthoritySource))
    (graph : AuthorityGraph) :
    List (List Claim) → List Claim → Except AREError (List Claim)
  | [], claims => .ok claims
  | g :: rest, claims =>
    match applyPrecedence sources graph g with
    | none =>
      .error (.conflictErr (g.map (·.id)) "unresolvable conflict - failing closed")
    | some w =>
      resolveGroups sources graph rest
        (claims.filter (fun c => !((losingIds g w).contains c.id)))

/-- `ResolveConflicts` from the compiler.  `cancelled` is `ctx.Err() != nil`
at entry; `sources` is the compiler's source table (read under the lock and
copied).  The precedence step consults the artifact's graph as it was before
the final rebuild, exactly as the Go code does. -/
def ResolveConflicts (sources : List (String × AuthoritySource))
    (cancelled : Bool) (artifact : AuthorityArtifact) :
    Except AREError AuthorityArtifact :=
  if cancelled then .error .cancelled
  else
    let a1 := applyRevocations artifact
    let a2 := applySupersessions a1
    let conflicts := findConflicts a2.claims
    match resolveGroups sources a2.graph conflicts a2.claims with
    | .error e => .error e
    | .ok cs => .ok { a2 with claims := cs, graph := buildGraph cs }

/-- The zero `Claim` value (what a Go map read returns for a missing node). -/
def zeroClaim : Claim :=
  { id := "", type_ := "", subject := "", action := "", resource := "",
    scope := { jurisdictions := [], timeStart := none, timeEnd := none,
               operations := [] },
    conditions := none, sourceId := "" }

/-- `isScopeContained` from the validator: jurisdiction and operation
subset checks plus time-bound checks that only apply when both sides carry
the bound. -/
def isScopeContained (inner outer : Scope) : Bool :=
  inner.jurisdictions.all (fun j => outer.jurisdictions.contains j) &&
  inner.operations.all (fun o => outer.operations.contains o) &&
  (match outer.timeStart, inner.timeStart with
   | some ots, some its => !(its < ots)
   | _, _ => true) &&
  (match outer.timeEnd, inner.timeEnd with
   | some ote, some ite => !(ite > ote)
   | _, _ => true)

/-- Go map read on the nilable nodes table, with the zero-claim default. -/
def nodesGet (nodes : Option (List (String × Claim))) (k : String) : Claim :=
  match nodes with
  | none => zeroClaim
  | some m => (mapLookup m k).getD zeroClaim

/-- `validateDelegationClaim` from the validator: locate the delegator via
the first incoming `delegates` edge; when one exists (non-empty id) the
delegatee's scope must be contained in the delegator's. -/
def validateDelegationClaim (c : Claim) (g : AuthorityGraph) : Bool :=
  let delegator :=
    match findDelegParent g.edges c.id with
    | none => zeroClaim
    | some fid => nodesGet g.nodes fid
  if delegator.id ≠ "" then isScopeContained c.scope delegator.scope else true

/-- `validateClaim` from the validator. -/
def validateClaim (c : Claim) (g : AuthorityGraph) : Bool :=
  !(c.id = "") && !(c.subject = "") && !(c.action = "") &&
  !(c.resource = "") && !(c.sourceId = "") &&
  (if c.type_ = "delegation" then validateDelegationClaim c g else true)

/-- `validateClaimWithErrors` from the validator. -/
def validateClaimWithErrors (c : Claim) (g : AuthorityGraph) : Option AREError :=
  if validateClaim c g then none
  else some (.validationErr "claim" ("claim " ++ c.id ++ " failed validation") none)

/-- The claim loop of `ValidateAirWithErrors`: first failing claim wins. -/
def validateClaimsSeq : List Claim → AuthorityGraph → Option AREError
  | [], _ => none
  | c :: cs, g =>
    match validateClaimWithErrors c g with
    | some e => some e
    | none => validateClaimsSeq cs g

/-- The edge loop of `validateGraphWithErrors`: both endpoints must be
nodes and the edge type must be non-empty. -/
def edgeCheck (nodeIds : List String) : List Edge → Option AREError
  | [] => none
  | e :: rest =>
    if !(nodeIds.contains e.fromId) then
      some (.validationErr "edge.FromID"
        ("edge references non-existent node: " ++ e.fromId)
        (some .invalidEdgeReference))
    else if !(nodeIds.contains e.toId) then
      some (.validationErr "edge.ToID"
        ("edge references non-existent node: " ++ e.toId)
        (some .invalidEdgeReference))
    else if e.edgeType = "" then
      some (.validationErr "edge.EdgeType" "edge type is required" none)
    else edgeCheck nodeIds rest

/-- `hasCycles.visit`: mark the node visited and on the recursion stack,
scan every edge leaving it in order — recursing into unvisited neighbours
and flagging any neighbour found on the recursion stack — then pop the node
from the stack.  State is `(cycleFound, visited, recStack)`; once a cycle
is found the remaining iterations pass the state through unchanged, which
matches the Go early-return.  The recursion visits a fresh node at each
level, so any fuel exceeding the number of reachable ids is enough;
`hasCycles` passes such a bound. -/
def dfsVisit (allEdges : List Edge) :
    Nat → String → List String → List String → Bool × List String × List String
  | 0, _, vis, stk => (false, vis, stk)
  | fuel + 1, nodeId, vis, stk =>
    let res := allEdges.foldl
      (fun (acc : Bool × List String × List String) e =>
        match acc with
        | (true, v, s) => (true, v, s)
        | (false, v, s) =>
          if e.fromId = nodeId then
            let nb := e.toId
            if !(v.contains nb) then dfsVisit allEdges fuel nb v s
            else if s.contains nb then (true, v, s)
            else (false, v, s)
          else (false, v, s))
      (false, nodeId :: vis, nodeId :: stk)
    match res with
    | (true, v, s) => (true, v, s)
    | (false, v, s) => (false, v, s.erase nodeId)

/-- Key list of the nilable nodes table. -/
def nodesKeys (nodes : Option (List (String × Claim))) : List String :=
  (nodes.getD []).map (·.1)

/-- The outer loop of `hasCycles` over node ids in sorted order. -/
def cyclesLoop (edges : List Edge) (fuel : Nat) :
    List String → List String → List String → Bool
  | [], _, _ => false
  | n :: rest, vis, stk =>
    if vis.contains n then cyclesLoop edges fuel rest vis stk
    else
      match dfsVisit edges fuel n vis stk with
      | (true, _, _) => true
      | (false, v, s) => cyclesLoop edges fuel rest v s

/-- `hasCycles` from the validator: depth-first search over sorted node
ids, along every outgoing edge regardless of edge type. -/
def hasCycles (g : AuthorityGraph) : Bool :=
  let ids := nodesKeys g.nodes
  cyclesLoop g.edges (ids.length + g.edges.length + 1) (sortBy strLeB ids) [] []

/-- `validateGraphWithErrors` from the validator. -/
def validateGraphWithErrors (g : AuthorityGraph) : Option AREError :=
  match g.nodes with
  | none => some .nilGraph
  | some nodes =>
    match edgeCheck (nodes.map (·.1)) g.edges with
    | some e => some e
    | none => if hasCycles g then some .cyclicGraph else none

/-- `ValidateAirWithErrors`: nil-nodes rejection, the empty-artifact early
acceptance, per-claim validation, then graph validation. -/
def ValidateAirWithErrors (a : AuthorityArtifact) : Option AREError :=
  match a.graph.nodes with
  | none => some .nilGraph
  | some nodes =>
    if a.claims.length = 0 && nodes.length = 0 then none
    else
      match validateClaimsSeq a.claims a.graph with
      | some e => some e
      | none => validateGraphWithErrors a.graph

/-- Days from 1970-01-01 for a civil date (Hinnant's algorithm); all
intermediate divisions act on non-negative operands for the year range
RFC 3339 admits. -/
def daysFromCivil (y m d : Int) : Int :=
  let y' := if m ≤ 2 then y - 1 else y
  let era := (if y' ≥ 0 then y' else y' - 399) / 400
  let yoe := y' - era * 400
  let mp := (m + 9) % 12
  let doy := (153 * mp + 2) / 5 + d - 1
  let doe := yoe * 365 + yoe / 4 - yoe / 100 + doy
  era * 146097 + doe - 719468

/-- Civil date from days since 1970-01-01 (inverse of `daysFromCivil`). -/
def civilFromDays (z0 : Int) : Int × Int × Int :=
  let z := z0 + 719468
  let era := (if z ≥ 0 then z else z - 146096) / 146097
  let doe := z - era * 146097
  let yoe := (doe - doe / 1460 + doe / 36524 - doe / 146096) / 365
  let y := yoe + era * 400
  let doy := doe - (365 * yoe + yoe / 4 - yoe / 100)
  let mp := (5 * doy + 2) / 153
  let d := doy - (153 * mp + 2) / 5 + 1
  let m := mp + (if mp < 10 then 3 else -9)
  (y + (if m ≤ 2 then 1 else 0), m, d)

/-- Parse exactly `n` ASCII digits into a number, returning the rest. -/
def parseDigitsN : Nat → List Char → Option (Nat × List Char)
  | 0, cs => some (0, cs)
  | _ + 1, [] => none
  | n + 1, c :: cs =>
    if isDigitCh c then
      match parseDigitsN n cs with
      | some (v, rest) => some ((c.toNat - 48) * 10 ^ n + v, rest)
      | none => none
    else none

/-- The timezone tail of an RFC 3339 date-time: `Z` or `±HH:MM`, yielding
the offset in seconds. -/
def parseTzTail (cs : List Char) : Option Int :=
  match cs with
  | ['Z'] => some 0
  | c :: rest =>
    if c = '+' || c = '-' then
      match parseDigitsN 2 rest with
      | some (oh, ':' :: rest2) =>
        match parseDigitsN 2 rest2 with
        | some (om, []) =>
          if oh ≤ 23 && om ≤ 59 then
            let off : Int := (oh : Int) * 3600 + (om : Int) * 60
            some (if c = '-' then -off else off)
          else none
        | _ => none
      | _ => none
    else none
  | [] => none

/-- RFC 3339 date-time parser (`time.Parse(time.RFC3339, s)`), yielding
seconds since the Unix epoch; fractional seconds are accepted and
truncated.  `none` models a parse error. -/
def parseRFC3339 (s : String) : Option Int :=
  match parseDigitsN 4 s.toList with
  | some (y, '-' :: r1) =>
    match parseDigitsN 2 r1 with
    | some (mo, '-' :: r2) =>
      match parseDigitsN 2 r2 with
      | some (da, 'T' :: r3) =>
        match parseDigitsN 2 r3 with
        | some (ho, ':' :: r4) =>
          match parseDigitsN 2 r4 with
          | some (mi, ':' :: r5) =>
            match parseDigitsN 2 r5 with
            | some (se, r6) =>
              let r7 := match r6 with
                | '.' :: rest => (rest.dropWhile isDigitCh)
                | other => other
              match parseTzTail r7 with
              | some off =>
                if 1 ≤ mo && mo ≤ 12 && 1 ≤ da && da ≤ 31 && ho ≤ 23 &&
                   mi ≤ 59 && se ≤ 60 then
                  some (daysFromCivil (y : Int) (mo : Int) (da : Int) * 86400
                    + (ho : Int) * 3600 + (mi : Int) * 60 + (se : Int) - off)
                else none
              | none => none
            | _ => none
          | _ => none
        | _ => none
      | _ => none
    | _ => none
  | _ => none

/-- Left-pad a numeral with zeroes. -/
def padNum (width : Nat) (n : Nat) : String :=
  let s := toString n
  let pad := width - s.length
  String.mk (List.replicate pad '0') ++ s

/-- `time.Time.Format(time.RFC3339)` for a UTC instant in epoch seconds. -/
def formatRFC3339 (t : Int) : String :=
  let days := Int.fdiv t 86400
  let secs := t - days * 86400
  let (y, mo, da) := civilFromDays days
  padNum 4 y.toNat ++ "-" ++ padNum 2 mo.toNat ++ "-" ++ padNum 2 da.toNat ++
  "T" ++ padNum 2 (secs / 3600).toNat ++ ":" ++
  padNum 2 ((secs / 60) % 60).toNat ++ ":" ++ padNum 2 (secs % 60).toNat ++ "Z"

/-- `parseTime` from the compiler: only string values are parsed, and a
parse error decays to absent. -/
def parseTimeVal (t : Option GoVal) : Option Int :=
  match t with
  | some (.vstr s) => parseRFC3339 s
  | _ => none

/-- A `.(string)` type assertion with Go's zero-value default
(`v, _ := d[k].(string)` yields `""` when missing or non-string). -/
def strFieldD (d : List (String × GoVal)) (k : String) : String :=
  match dictLookup d k with
  | some (.vstr s) => s
  | _ => ""

/-- The strings of a `[]interface{}` value, in order, skipping non-strings
(the jurisdiction/operation collection loops of `parseClaim`). -/
def collectStrings (v : Option GoVal) : List String :=
  match v with
  | some (.vlist xs) =>
    xs.filterMap (fun x => match x with | .vstr s => some s | _ => none)
  | _ => []

/-- `parseClaim` from the compiler: required non-empty `id`, valid `type`,
optional scope whose time fields decay to absent on parse failure, then
required non-empty `subject`, `action`, `resource`; `conditions` preserved
verbatim when it is a record. -/
def parseClaim (d : List (String × GoVal)) (sourceId : String) :
    Except AREError Claim :=
  let id := strFieldD d "id"
  if id = "" then .error (.validationErr "id" "claim ID is required" none)
  else
    let ct := strFieldD d "type"
    if ct = "" then .error (.validationErr "type" "claim type is required" none)
    else if !(isValidClaimType ct) then
      .error (.validationErr "type" ("invalid claim type: " ++ ct) none)
    else
      let scopeData := match dictLookup d "scope" with
        | some (.vdict sd) => sd
        | _ => []
      let scope : Scope :=
        { jurisdictions := collectStrings (dictLookup scopeData "jurisdictions"),
          timeStart := parseTimeVal (dictLookup scopeData "time_start"),
          timeEnd := parseTimeVal (dictLookup scopeData "time_end"),
          operations := collectStrings (dictLookup scopeData "operations") }
      let subject := strFieldD d "subject"
      if subject = "" then
        .error (.validationErr "subject" "claim subject is required" none)
      else
        let action := strFieldD d "action"
        if action = "" then
          .error (.validationErr "action" "claim action is required" none)
        else
          let resource := strFieldD d "resource"
          if resource = "" then
            .error (.validationErr "resource" "claim resource is required" none)
          else
            .ok { id := id, type_ := ct, subject := subject, action := action,
                  resource := resource, scope := scope,
                  conditions := (match dictLookup d "conditions" with
                    | some (.vdict m) => some m
                    | _ => none),
                  sourceId := sourceId }

/-- The compiler's only mutable state: the source table keyed by source id. -/
structure CompilerState where
  sources : List (String × AuthoritySource)
deriving Repr

/-- Go map insert for the source table (last writer wins on an id). -/
def insertSource (m : List (String × AuthoritySource)) (k : String)
    (v : AuthoritySource) : List (String × AuthoritySource) :=
  match m with
  | [] => [(k, v)]
  | (k', v') :: rest =>
    if k' = k then (k, v) :: rest else (k', v') :: insertSource rest k v

/-- Read of the source table as an `Option` (for stating registration). -/
def lookupSourceOpt (m : List (String × AuthoritySource)) (k : String) :
    Option AuthoritySource :=
  match m with
  | [] => none
  | (k', v) :: rest => if k' = k then some v else lookupSourceOpt rest k

/-- `Normalize` from the compiler: cancellation check, empty-id rejection,
source registration, claim parsing (collecting all parse errors while
keeping successes), and artifact assembly.  `freshId` and `now` stand for
`uuid.New().String()` and `time.Now().UTC()`. -/
def Normalize (st : CompilerState) (cancelled : Bool)
    (source : AuthoritySource) (freshId : String) (now : Int) :
    CompilerState × Except AREError AuthorityArtifact :=
  if cancelled then (st, .error .cancelled)
  else if source.id = "" then (st, .error .emptySourceID)
  else
    let st' : CompilerState := ⟨insertSource st.sources source.id source⟩
    let records := match dictLookup source.metadata "claims" with
      | some (.vlist xs) => xs
      | _ => []
    let parsed := records.foldl
      (fun (acc : List Claim × List AREError) r =>
        match r with
        | .vdict d =>
          match parseClaim d source.id with
          | .error e => (acc.1, acc.2 ++ [e])
          | .ok c => (acc.1 ++ [c], acc.2)
        | _ => acc) ([], [])
    match parsed.2 with
    | [] =>
      (st', .ok { id := freshId, sourceId := source.id, claims := parsed.1,
                  graph := buildGraph parsed.1, generatedAt := now })
    | e :: _ =>
      (st', .error (.compilationErr "normalization"
        ("failed to parse " ++ toString parsed.2.length ++ " claims") (some e)))

/-- JSON values as produced by the proof emitter. -/
inductive Jval where
  | jstr (s : String)
  | jnum (n : Int)
  | jarr (xs : List Jval)
  | jobj (fields : List (String × Jval))
deriving Repr

/-- Minimal JSON string escaping (quote and backslash; the emitted fields
contain plain identifiers). -/
def jsonEscape (s : String) : String :=
  String.mk (s.toList.foldr
    (fun c acc =>
      if c = '\x22' then '\\' :: '\x22' :: acc
      else if c = '\\' then '\\' :: '\\' :: acc
      else c :: acc) [])

mutual
/-- Rendering mirroring `json.MarshalIndent(v, "", "  ")`: two-space
indentation, key order as listed (the emitter lists keys in sorted order,
as Go does when marshalling maps). -/
def renderJval (indent : String) : Jval → String
  | .jstr s => "\x22" ++ jsonEscape s ++ "\x22"
  | .jnum n => toString n
  | .jarr xs =>
    match xs with
    | [] => "[]"
    | _ =>
      "[\n" ++ renderArr (indent ++ "  ") xs ++ "\n" ++ indent ++ "]"
  | .jobj fields =>
    match fields with
    | [] => "\x7b\x7d"
    | _ =>
      "\x7b\n" ++ renderObj (indent ++ "  ") fields ++ "\n" ++ indent ++ "\x7d"

def renderArr (indent : String) : List Jval → String
  | [] => ""
  | [x] => indent ++ renderJval indent x
  | x :: rest => indent ++ renderJval indent x ++ ",\n" ++ renderArr indent rest

def renderObj (indent : String) : List (String × Jval) → String
  | [] => ""
  | [(k, v)] => indent ++ "\x22" ++ jsonEscape k ++ "\x22: " ++ renderJval indent v
  | (k, v) :: rest =>
    indent ++ "\x22" ++ jsonEscape k ++ "\x22: " ++ renderJval indent v ++ ",\n" ++
      renderObj indent rest
end

/-- The proof document of `EmitProof` as a key-sorted JSON object: claims
sorted by id, counts, identity and timestamp fields. -/
def proofData (a : AuthorityArtifact) : List (String × Jval) :=
  let sortedClaims := sortBy (fun x y => strLeB x.id y.id) a.claims
  let claimsList := sortedClaims.map (fun c => Jval.jobj
    [("action", .jstr c.action),
     ("id", .jstr c.id),
     ("resource", .jstr c.resource),
     ("source_id", .jstr c.sourceId),
     ("subject", .jstr c.subject),
     ("type", .jstr c.type_)])
  [("artifact_id", .jstr a.id),
   ("claims", .jarr claimsList),
   ("claims_count", .jnum a.claims.length),
   ("generated_at", .jstr (formatRFC3339 a.generatedAt)),
   ("graph", .jobj [("edges", .jnum a.graph.edges.length),
                    ("nodes", .jnum (nodesKeys a.graph.nodes).length)]),
   ("source_id", .jstr a.sourceId)]

/-- `EmitProof` from the compiler: deterministic key-sorted JSON. -/
def EmitProof (a : AuthorityArtifact) : String :=
  renderJval "" (.jobj (proofData a))

/-- Mask the per-invocation entries of the proof document (`artifact_id`
and `generated_at`), leaving every other entry untouched. -/
def maskEntry (kv : String × Jval) : String × Jval :=
  if kv.1 = "artifact_id" || kv.1 = "generated_at" then (kv.1, .jstr "MASKED")
  else kv

/-- The emitted proof with the `artifact_id` and `generated_at` entries of
the document masked. -/
def maskedProof (a : AuthorityArtifact) : String :=
  renderJval "" (.jobj ((proofData a).map maskEntry))

/-- `Compile` from the compiler (identity placeholder). -/
def Compile (a : AuthorityArtifact) : AuthorityArtifact := a

/-- `getClaimIDs` from the compiler: claim ids sorted ascending. -/
def getClaimIDs (claims : List Claim) : List String :=
  sortBy strLeB (claims.map (·.id))

/-- `AuthorizationResult` from `core/runtime_interface.go`; `scope` is the
record produced by `scopeToDict`. -/
structure AuthorizationResult where
  allowed : Bool
  authorityId : String
  reason : String
  scope : List (String × GoVal)
deriving Repr

/-- `scopeToDict` from the runtime interface: time bounds become RFC 3339
strings when present, nil otherwise. -/
def scopeToDict (s : Scope) : List (String × GoVal) :=
  [("jurisdictions", .vlist (s.jurisdictions.map .vstr)),
   ("time_start", match s.timeStart with
     | some t => .vstr (formatRFC3339 t)
     | none => .vother),
   ("time_end", match s.timeEnd with
     | some t => .vstr (formatRFC3339 t)
     | none => .vother),
   ("operations", .vlist (s.operations.map .vstr))]

/-- Whether `pre` is an initial segment of `l`. -/
def listStartsWith : List Char → List Char → Bool
  | [], _ => true
  | _ :: _, [] => false
  | a :: as, b :: bs => a = b && listStartsWith as bs

/-- `matches` from the runtime interface: exact `*`, literal equality,
`body/*` with a `body/` query start, or `body*` with a `body` query start;
no other wildcard syntax is honoured. -/
def matchesPattern (pattern value : String) : Bool :=
  if pattern = "*" then true
  else if pattern = value then true
  else if pattern.toList.contains '*' then
    match pattern.toList.reverse with
    | '*' :: '/' :: revBody =>
      listStartsWith (revBody.reverse ++ ['/']) value.toList
    | '*' :: revBody =>
      listStartsWith revBody.reverse value.toList
    | _ => false
  else false

/-- The claims of the artifact whose subject, action and resource patterns
all match the query. -/
def applicableClaims (a : AuthorityArtifact) (subject action resource : String) :
    List Claim :=
  a.claims.filter (fun c =>
    matchesPattern c.subject subject && matchesPattern c.action action &&
    matchesPattern c.resource resource)

/-- `IsAuthorized` from the runtime interface: first matching prohibition
denies, else first matching permission allows, else deny with the artifact
id (fail closed). -/
def IsAuthorized (a : AuthorityArtifact) (subject action resource : String) :
    AuthorizationResult :=
  let applicable := applicableClaims a subject action resource
  match applicable.find? (fun c => c.type_ = "prohibition") with
  | some c =>
    { allowed := false, authorityId := c.id, reason := "Prohibited by authority",
      scope := scopeToDict c.scope }
  | none =>
    match applicable.find? (fun c => c.type_ = "permission") with
    | some c =>
      { allowed := true, authorityId := c.id, reason := "Permitted by authority",
        scope := scopeToDict c.scope }
    | none =>
      { allowed := false, authorityId := a.id,
        reason := "No applicable authority found - failing closed", scope := [] }

/-- Outcome of the pipeline driver: `CompilationSuccess` or
`CompilationFailure`. -/
inductive ProcResult where
  | success (artifact : AuthorityArtifact) (proof : String)
  | failure (failureStage : String) (violatedInvariant : String)
      (involvedClaimIDs : List String) (failClosed : Bool)
deriving Repr

/-- The cancellation signal as the pipeline samples it: the value of
`ctx.Err() != nil` at `Normalize` entry and at `ResolveConflicts` entry. -/
structure Ctx where
  cancelAtNormalize : Bool
  cancelAtResolve : Bool
deriving Repr

/-- `ProcessWithContext` from the compiler.  On a resolution-stage error
the Go code has already overwritten `artifact` with the zero value returned
beside the error, so the failure reads its claim ids from `zeroArtifact`. -/
def ProcessWithContext (st : CompilerState) (ctx : Ctx)
    (source : AuthoritySource) (freshId : String) (now : Int) :
    CompilerState × ProcResult :=
  match Normalize st ctx.cancelAtNormalize source freshId now with
  | (st', .error e) =>
    (st', .failure "normalization" (errMessage e) [] true)
  | (st', .ok artifact) =>
    match ValidateAirWithErrors artifact with
    | some e =>
      (st', .failure "validation" (errMessage e) (getClaimIDs artifact.claims) true)
    | none =>
      match ResolveConflicts st'.sources ctx.cancelAtResolve artifact with
      | .error e =>
        (st', .failure "resolution" (errMessage e)
          (getClaimIDs zeroArtifact.claims) true)
      | .ok resolved =>
        let final := Compile resolved
        (st', .success final (EmitProof final))

/-- One conflict group processed: drop the losers (claims whose id appears
in the group with an id other than the winner's).  A group without a winner
leaves the list unchanged (that case aborts `ResolveConflicts` instead). -/
def resolveStep (sources : List (String × AuthoritySource))
    (graph : AuthorityGraph) (cs : List Claim) (g : List Claim) : List Claim :=
  match applyPrecedence sources graph g with
  | none => cs
  | some w => cs.filter (fun c => !((losingIds g w).contains c.id))

/-- The artifact `ResolveConflicts` produces when not cancelled. -/
def resolvedArtifact (sources : List (String × AuthoritySource))
    (a : AuthorityArtifact) : AuthorityArtifact :=
  let a2 := applySupersessions (applyRevocations a)
  let cs := (findConflicts a2.claims).foldl (resolveStep sources a2.graph) a2.claims
  { a2 with claims := cs, graph := buildGraph cs }

theorem findConflicts_groups_ne_nil (claims : List Claim) :
    ∀ g ∈ findConflicts claims, g ≠ [] := by
  intro g hg
  unfold findConflicts at hg
  have := List.of_mem_filter hg
  intro hnil
  subst hnil
  simp at this

theorem resolveGroups_ok (sources : List (String × AuthoritySource))
    (graph : AuthorityGraph) (groups : List (List Claim)) (cs : List Claim)
    (h : ∀ g ∈ groups, g ≠ []) :
    resolveGroups sources graph groups cs =
      .ok (groups.foldl (resolveStep sources graph) cs) := by
  induction groups generalizing cs with
  | nil => rfl
  | cons g rest ih =>
    have hg : g ≠ [] := h g (List.mem_cons_self g rest)
    match hge : g with
    | [] => exact absurd rfl hg
    | c :: gs =>
      simp only [resolveGroups, applyPrecedence, List.foldl_cons, resolveStep]
      exact ih _ (fun g' hg' => h g' (List.mem_cons_of_mem _ hg'))

theorem resolveConflicts_not_cancelled
    (sources : List (String × AuthoritySource)) (a : AuthorityArtifact) :
    ResolveConflicts sources false a = .ok (resolvedArtifact sources a) := by
  have h := resolveGroups_ok sources (applySupersessions (applyRevocations a)).graph
      (findConflicts (applySupersessions (applyRevocations a)).claims)
      (applySupersessions (applyRevocations a)).claims
      (findConflicts_groups_ne_nil _)
  unfold ResolveConflicts resolvedArtifact
  simp only [Bool.false_eq_true, if_false, h]

/-- C10: for every artifact and every non-cancelled context,
`ResolveConflicts` succeeds — every conflict group is non-empty, so
`applyPrecedence` always produces a winner and the unresolvable-conflict
branch is unreachable; with a cancelled context the only error it returns
is the cancellation error. -/
theorem resolver_never_unresolvable
    (sources : List (String × AuthoritySource)) (a : AuthorityArtifact) :
    (∃ a', ResolveConflicts sources false a = .ok a') ∧
    ResolveConflicts sources true a = .error .cancelled :=
  ⟨⟨resolvedArtifact sources a, resolveConflicts_not_cancelled sources a⟩, rfl⟩

/-- Conflict-group scenario for the precedence key: two organizational
sources that differ only in version. -/
def c1SrcHigh : AuthoritySource :=
  { id := "sHi", type_ := "organizational", name := "", description := "",
    version := "2.0.0", metadata := [] }

def c1SrcLow : AuthoritySource :=
  { id := "sLo", type_ := "organizational", name := "", description := "",
    version := "1.0.0", metadata := [] }

def c1ScopeEmpty : Scope :=
  { jurisdictions := [], timeStart := none, timeEnd := none, operations := [] }

def c1ClaimHigh : Claim :=
  { id := "cHi", type_ := "permission", subject := "u", action := "read",
    resource := "/r", scope := c1ScopeEmpty, conditions := none,
    sourceId := "sHi" }

def c1ClaimLow : Claim :=
  { id := "cLo", type_ := "prohibition", subject := "u", action := "read",
    resource := "/r", scope := c1ScopeEmpty, conditions := none,
    sourceId := "sLo" }

def c1Sources : List (String × AuthoritySource) :=
  [("sHi", c1SrcHigh), ("sLo", c1SrcLow)]

def c1Graph : AuthorityGraph := buildGraph [c1ClaimHigh, c1ClaimLow]

/-- C1: the version triple never participates in precedence comparison.
`comparePrecedenceKeys` switches on the dynamic type of each component and
only handles `int` and `string`; the `[]int` version triple matches no case
and is skipped, so two keys that agree on every other component compare
equal no matter their versions — and in the concrete conflict group below,
whose sources tie on authority order but carry versions `2.0.0` and
`1.0.0`, the member from the *higher*-versioned source (listed first) wins
instead of the lower-versioned one demanded by the specification. -/
theorem version_component_never_compared :
    (∀ (o d s : Int) (v1 v2 : List Int),
      comparePrecedenceKeys [.kint o, .kints v1, .kint d, .kint s]
        [.kint o, .kints v2, .kint d, .kint s] = 0) ∧
    parseVersion c1SrcHigh.version = [2, 0, 0] ∧
    parseVersion c1SrcLow.version = [1, 0, 0] ∧
    comparePrecedenceKeys (precedenceKey c1SrcHigh c1ClaimHigh c1Graph)
      (precedenceKey c1SrcLow c1ClaimLow c1Graph) = 0 ∧
    applyPrecedence c1Sources c1Graph [c1ClaimHigh, c1ClaimLow] =
      some c1ClaimHigh := by
  refine ⟨?_, by decide, by decide, by decide, rfl⟩
  intro o d s v1 v2
  simp [comparePrecedenceKeys, lt_irrefl]

/-- C5: the validator's scope containment check decides exactly the
specification's definition — jurisdiction subset, operation subset, and the
time-bound comparisons that apply only when both sides carry the bound. -/
theorem scope_containment_decides_spec (inner outer : Scope) :
    isScopeContained inner outer = true ↔
      ((∀ j ∈ inner.jurisdictions, j ∈ outer.jurisdictions) ∧
       (∀ o ∈ inner.operations, o ∈ outer.operations) ∧
       (∀ ots its, outer.timeStart = some ots → inner.timeStart = some its →
         ots ≤ its) ∧
       (∀ ote ite, outer.timeEnd = some ote → inner.timeEnd = some ite →
         ite ≤ ote)) := by
  cases hos : outer.timeStart <;> cases his : inner.timeStart <;>
    cases hoe : outer.timeEnd <;> cases hie : inner.timeEnd <;>
      simp [isScopeContained, hos, his, hoe, hie, List.all_eq_true,
        Int.not_lt, and_assoc]

/-- C7: a nil nodes table is rejected with the NilGraph error before
anything else is examined, while an artifact with zero claims and an
initialized empty nodes table validates successfully. -/
theorem validator_nil_graph_vs_empty :
    (∀ a : AuthorityArtifact, a.graph.nodes = none →
      ValidateAirWithErrors a = some .nilGraph) ∧
    (∀ a : AuthorityArtifact, a.claims = [] → a.graph.nodes = some [] →
      ValidateAirWithErrors a = none) := by
  constructor
  · intro a h
    simp [ValidateAirWithErrors, h]
  · intro a hclaims hnodes
    simp [ValidateAirWithErrors, hclaims, hnodes]

/-- An artifact whose nodes table is nil (but which carries a claim). -/
def c7NilGraphArt : AuthorityArtifact :=
  { id := "a-nil", sourceId := "s",
    claims := [{ id := "c1", type_ := "permission", subject := "u",
                 action := "read", resource := "/f", scope := c1ScopeEmpty,
                 conditions := none, sourceId := "s" }],
    graph := { nodes := none, edges := [] }, generatedAt := 0 }

/-- An empty artifact with an initialized empty nodes table. -/
def c7EmptyArt : AuthorityArtifact :=
  { id := "a-empty", sourceId := "s", claims := [],
    graph := { nodes := some [], edges := [] }, generatedAt := 0 }

theorem validator_nil_graph_vs_empty_witness :
    ValidateAirWithErrors c7NilGraphArt = some .nilGraph ∧
    ValidateAirWithErrors c7EmptyArt = none :=
  ⟨validator_nil_graph_vs_empty.1 c7NilGraphArt rfl,
   validator_nil_graph_vs_empty.2 c7EmptyArt rfl rfl⟩

theorem lookupSourceOpt_insertSource (m : List (String × AuthoritySource))
    (k : String) (v : AuthoritySource) :
    lookupSourceOpt (insertSource m k v) k = some v := by
  induction m with
  | nil => simp [insertSource, lookupSourceOpt]
  | cons p rest ih =>
    obtain ⟨pk, pv⟩ := p
    by_cases h : pk = k
    · subst h
      simp [insertSource, lookupSourceOpt]
    · simp [insertSource, lookupSourceOpt, h, ih]

/-- C9: `Normalize` registers the source in the compiler's source table
before claim parsing begins, and a claim-parse failure does not roll the
registration back: whenever `Normalize` returns an error on a non-empty
source id with a live context, the updated state still maps `source.id` to
the source. -/
theorem normalize_registers_source_despite_failure (st : CompilerState)
    (source : AuthoritySource) (freshId : String) (now : Int) (e : AREError)
    (hid : source.id ≠ "")
    (hfail : (Normalize st false source freshId now).2 = .error e) :
    lookupSourceOpt (Normalize st false source freshId now).1.sources
      source.id = some source := by
  unfold Normalize
  simp only [Bool.false_eq_true, if_false, hid, if_neg]
  split
  · exact lookupSourceOpt_insertSource st.sources source.id source
  · exact lookupSourceOpt_insertSource st.sources source.id source

/-- A source whose single claim record lacks the required `id` field. -/
def c9BadSrc : AuthoritySource :=
  { id := "src9", type_ := "legal", name := "", description := "",
    version := "1.0.0",
    metadata := [("claims", .vlist [.vdict [("type", .vstr "permission")]])] }

theorem normalize_registers_source_despite_failure_witness :
    (Normalize ⟨[]⟩ false c9BadSrc "fresh" 0).2 =
      .error (.compilationErr "normalization" "failed to parse 1 claims"
        (some (.validationErr "id" "claim ID is required" none))) ∧
    lookupSourceOpt (Normalize ⟨[]⟩ false c9BadSrc "fresh" 0).1.sources
      "src9" = some c9BadSrc :=
  ⟨rfl, normalize_registers_source_despite_failure ⟨[]⟩ c9BadSrc "fresh" 0 _
    (by decide) rfl⟩

/-- C3 (amended): `IsAuthorized` denies with a matching prohibition's id
when one matches, otherwise allows with a matching permission's id, and
otherwise denies with the artifact id and the code's literal fail-closed
reason string. -/
theorem isAuthorized_prohibition_dominates
    (a : AuthorityArtifact) (s act r : String) :
    ((∃ c ∈ applicableClaims a s act r, c.type_ = "prohibition") →
      (IsAuthorized a s act r).allowed = false ∧
      ∃ c ∈ applicableClaims a s act r, c.type_ = "prohibition" ∧
        (IsAuthorized a s act r).authorityId = c.id) ∧
    ((∀ c ∈ applicableClaims a s act r, c.type_ ≠ "prohibition") →
     (∃ c ∈ applicableClaims a s act r, c.type_ = "permission") →
      (IsAuthorized a s act r).allowed = true ∧
      ∃ c ∈ applicableClaims a s act r, c.type_ = "permission" ∧
        (IsAuthorized a s act r).authorityId = c.id) ∧
    ((∀ c ∈ applicableClaims a s act r, c.type_ ≠ "prohibition") →
     (∀ c ∈ applicableClaims a s act r, c.type_ ≠ "permission") →
      IsAuthorized a s act r =
        { allowed := false, authorityId := a.id,
          reason := "No applicable authority found - failing closed",
          scope := [] }) := by
  unfold IsAuthorized
  dsimp only
  split
  · rename_i c hpro
    have hmem := List.mem_of_find?_eq_some hpro
    have htype : c.type_ = "prohibition" := by
      have hp := List.find?_some hpro
      simpa using hp
    refine ⟨fun _ => ⟨rfl, c, hmem, htype, rfl⟩, ?_, ?_⟩
    · intro hnone _
      exact absurd htype (hnone c hmem)
    · intro hnone _
      exact absurd htype (hnone c hmem)
  · rename_i hpro
    split
    · rename_i c hperm
      have hmem := List.mem_of_find?_eq_some hperm
      have htype : c.type_ = "permission" := by
        have hp := List.find?_some hperm
        simpa using hp
      refine ⟨?_, fun _ _ => ⟨rfl, c, hmem, htype, rfl⟩, ?_⟩
      · rintro ⟨x, hx, hxt⟩
        rw [List.find?_eq_none] at hpro
        exact absurd (decide_eq_true hxt) (hpro x hx)
      · intro _ hnop
        exact absurd htype (hnop c hmem)
    · rename_i hperm
      refine ⟨?_, ?_, fun _ _ => rfl⟩
      · rintro ⟨x, hx, hxt⟩
        rw [List.find?_eq_none] at hpro
        exact absurd (decide_eq_true hxt) (hpro x hx)
      · rintro _ ⟨x, hx, hxt⟩
        rw [List.find?_eq_none] at hperm
        exact absurd (decide_eq_true hxt) (hperm x hx)

/-- An artifact with no claims at all (every query fails closed). -/
def c3EmptyArt : AuthorityArtifact :=
  { id := "art-e", sourceId := "s", claims := [],
    graph := { nodes := some [], edges := [] }, generatedAt := 0 }

theorem isAuthorized_prohibition_dominates_witness :
    IsAuthorized c3EmptyArt "subj" "act" "res" =
      { allowed := false, authorityId := "art-e",
        reason := "No applicable authority found - failing closed",
        scope := [] } :=
  (isAuthorized_prohibition_dominates c3EmptyArt "subj" "act" "res").2.2
    (by intro c hc; simp [applicableClaims, c3EmptyArt] at hc)
    (by intro c hc; simp [applicableClaims, c3EmptyArt] at hc)

/-- C3 counterexample on the literal claim: the fail-closed reason the code
returns is `"No applicable authority found - failing closed"`, not the
string `"no applicable authority — failing closed"` asserted by the
specification. -/
theorem isAuthorized_reason_string_differs :
    (IsAuthorized c3EmptyArt "subj" "act" "res").allowed = false ∧
    (IsAuthorized c3EmptyArt "subj" "act" "res").authorityId = c3EmptyArt.id ∧
    (IsAuthorized c3EmptyArt "subj" "act" "res").reason =
      "No applicable authority found - failing closed" ∧
    (IsAuthorized c3EmptyArt "subj" "act" "res").reason ≠
      "no applicable authority — failing closed" :=
  ⟨rfl, rfl, rfl, by decide⟩

/-- C6: proof emission is a deterministic function of the artifact modulo
its `id` and `generated_at` fields — for two artifacts equal field-by-field
except those two, the emitted documents are byte-identical once the
`artifact_id` and `generated_at` entries are masked. -/
theorem emit_proof_deterministic_modulo_identity (a b : AuthorityArtifact)
    (hsrc : a.sourceId = b.sourceId) (hclaims : a.claims = b.claims)
    (hgraph : a.graph = b.graph) :
    maskedProof a = maskedProof b := by
  unfold maskedProof proofData
  simp only [List.map_cons, List.map_nil, maskEntry, hsrc, hclaims, hgraph]
  norm_num

theorem emit_proof_deterministic_modulo_identity_witness :
    maskedProof
      { id := "uuid-1", sourceId := "s", claims := [c1ClaimHigh],
        graph := buildGraph [c1ClaimHigh], generatedAt := 11 } =
    maskedProof
      { id := "uuid-2", sourceId := "s", claims := [c1ClaimHigh],
        graph := buildGraph [c1ClaimHigh], generatedAt := 22 } :=
  emit_proof_deterministic_modulo_identity _ _ rfl rfl rfl

/-- C2 (amended): each pipeline failure is converted to a
`CompilationFailure` with the stage name, the error's message and
`fail_closed = true`; the normalization failure carries an empty id list,
the validation failure carries the sorted claim ids of the normalized
artifact, and the resolution failure carries the claim ids of the **zero**
artifact (empty) because Go reassigns `artifact` to the zero value returned
beside the resolver's error before reading the ids. -/
theorem process_failure_shape (st : CompilerState) (ctx : Ctx)
    (source : AuthoritySource) (freshId : String) (now : Int) :
    (∀ st' e,
      Normalize st ctx.cancelAtNormalize source freshId now = (st', .error e) →
      (ProcessWithContext st ctx source freshId now).2 =
        .failure "normalization" (errMessage e) [] true) ∧
    (∀ st' a e,
      Normalize st ctx.cancelAtNormalize source freshId now = (st', .ok a) →
      ValidateAirWithErrors a = some e →
      (ProcessWithContext st ctx source freshId now).2 =
        .failure "validation" (errMessage e) (getClaimIDs a.claims) true) ∧
    (∀ st' a e,
      Normalize st ctx.cancelAtNormalize source freshId now = (st', .ok a) →
      ValidateAirWithErrors a = none →
      ResolveConflicts st'.sources ctx.cancelAtResolve a = .error e →
      (ProcessWithContext st ctx source freshId now).2 =
        .failure "resolution" (errMessage e) [] true) := by
  refine ⟨?_, ?_, ?_⟩
  · intro st' e h
    unfold ProcessWithContext
    rw [h]
  · intro st' a e h hv
    unfold ProcessWithContext
    rw [h]
    dsimp only
    rw [hv]
  · intro st' a e h hv hr
    unfold ProcessWithContext
    rw [h]
    dsimp only
    rw [hv, hr]
    rfl

/-- A source whose id is empty, so that normalization fails. -/
def c2EmptySrc : AuthoritySource :=
  { id := "", type_ := "legal", name := "", description := "",
    version := "1.0.0", metadata := [] }

theorem process_failure_shape_witness :
    (ProcessWithContext ⟨[]⟩ ⟨false, false⟩ c2EmptySrc "fresh" 0).2 =
      .failure "normalization" "source ID is empty" [] true :=
  (process_failure_shape ⟨[]⟩ ⟨false, false⟩ c2EmptySrc "fresh" 0).1
    ⟨[]⟩ .emptySourceID rfl

/-- A well-formed source with one valid claim. -/
def c2GoodSrc : AuthoritySource :=
  { id := "src1", type_ := "legal", name := "T", description := "",
    version := "1.0",
    metadata := [("claims", .vlist [
      .vdict [("id", .vstr "claim_1"), ("type", .vstr "permission"),
              ("subject", .vstr "u"), ("action", .vstr "read"),
              ("resource", .vstr "/f")]])] }

/-- The artifact `Normalize` produces for `c2GoodSrc` (the artifact that is
validated and then handed to the resolver). -/
def c2ValidatedArt : AuthorityArtifact :=
  match (Normalize ⟨[]⟩ false c2GoodSrc "art-1" 0).2 with
  | .ok a => a
  | .error _ => zeroArtifact

/-- C2 counterexample on the literal claim: with a context that is live at
`Normalize` but cancelled at `ResolveConflicts`, the pipeline fails at the
resolution stage with `involved_claim_ids = []`, although the validated
artifact that entered the resolver has the sorted claim id list
`["claim_1"]`. -/
theorem process_resolution_ids_not_from_validated_artifact :
    (ProcessWithContext ⟨[]⟩ ⟨false, true⟩ c2GoodSrc "art-1" 0).2 =
      .failure "resolution" "context canceled" [] true ∧
    (Normalize ⟨[]⟩ false c2GoodSrc "art-1" 0).2 = .ok c2ValidatedArt ∧
    ValidateAirWithErrors c2ValidatedArt = none ∧
    getClaimIDs c2ValidatedArt.claims = ["claim_1"] ∧
    ([] : List String) ≠ ["claim_1"] :=
  ⟨rfl, rfl, rfl, rfl, by decide⟩

/-- Whether a claim survives the resolution of one conflict group: true
unless its id is among the group's losing ids. -/
def keepB (sources : List (String × AuthoritySource)) (graph : AuthorityGraph)
    (g : List Claim) (c : Claim) : Bool :=
  match applyPrecedence sources graph g with
  | none => true
  | some w => !((losingIds g w).contains c.id)

theorem resolveStep_eq_filter (sources : List (String × AuthoritySource))
    (graph : AuthorityGraph) (cs : List Claim) (g : List Claim) :
    resolveStep sources graph cs g = cs.filter (keepB sources graph g) := by
  unfold resolveStep keepB
  cases applyPrecedence sources graph g with
  | none => simp
  | some w => rfl

theorem mem_foldl_resolveStep (sources : List (String × AuthoritySource))
    (graph : AuthorityGraph) (gs : List (List Claim)) (cs : List Claim)
    (c : Claim) :
    c ∈ gs.foldl (resolveStep sources graph) cs ↔
      c ∈ cs ∧ ∀ g ∈ gs, keepB sources graph g c = true := by
  induction gs generalizing cs with
  | nil => simp
  | cons g rest ih =>
    rw [List.foldl_cons, resolveStep_eq_filter, ih]
    simp only [List.mem_filter, List.forall_mem_cons]
    tauto

theorem keep_id_eq_winner (sources : List (String × AuthoritySource))
    (graph : AuthorityGraph) (g : List Claim) (w c : Claim)
    (hw : applyPrecedence sources graph g = some w)
    (hkeep : keepB sources graph g c = true)
    (hidmem : ∃ x ∈ g, x.id = c.id) : c.id = w.id := by
  unfold keepB at hkeep
  rw [hw] at hkeep
  dsimp only at hkeep
  by_contra hne
  obtain ⟨x, hx, hxid⟩ := hidmem
  have hxw : ¬ (x.id = w.id) := by rw [hxid]; exact hne
  have hmem : c.id ∈ losingIds g w := by
    unfold losingIds
    exact List.mem_map.mpr ⟨x, List.mem_filter.mpr ⟨hx, by simp [hxw]⟩, hxid⟩
  have hc : (losingIds g w).contains c.id = true := by
    simpa using hmem
  rw [hc] at hkeep
  simp at hkeep

theorem mem_dedupStr (s : String) (l : List String) : s ∈ dedupStr l ↔ s ∈ l := by
  induction l with
  | nil => simp [dedupStr]
  | cons x xs ih =>
    by_cases h : xs.contains x
    · have hx : x ∈ xs := by simpa using h
      simp only [dedupStr, if_pos h, ih, List.mem_cons]
      constructor
      · exact Or.inr
      · rintro (rfl | hs)
        · exact hx
        · exact hs
    · simp only [dedupStr, if_neg h, List.mem_cons, ih]

theorem one_lt_length_of_two_mem {l : List α} {a b : α}
    (ha : a ∈ l) (hb : b ∈ l) (hne : a ≠ b) : 1 < l.length := by
  match l with
  | [] => exact absurd ha (List.not_mem_nil a)
  | [x] =>
    rw [List.mem_singleton] at ha hb
    exact absurd (ha.trans hb.symm) hne
  | x :: y :: rest =>
    simp only [List.length_cons]
    omega

theorem nodup_ids_filter (p : Claim → Bool) (cs : List Claim)
    (h : (cs.map (fun c => c.id)).Nodup) :
    ((cs.filter p).map (fun c => c.id)).Nodup :=
  h.sublist ((List.filter_sublist cs).map (fun c => c.id))

theorem findConflicts_covers (cs : List Claim) (c1 c2 : Claim)
    (h1 : c1 ∈ cs) (h2 : c2 ∈ cs) (hne : c1 ≠ c2)
    (hp1 : participatesInConflicts c1 = true)
    (hp2 : participatesInConflicts c2 = true)
    (hkey : claimKey c1 = claimKey c2) :
    ∃ g ∈ findConflicts cs, c1 ∈ g ∧ c2 ∈ g := by
  have hc1p : c1 ∈ cs.filter participatesInConflicts :=
    List.mem_filter.mpr ⟨h1, hp1⟩
  have hc2p : c2 ∈ cs.filter participatesInConflicts :=
    List.mem_filter.mpr ⟨h2, hp2⟩
  have hc1g : c1 ∈ (cs.filter participatesInConflicts).filter
      (fun c => claimKey c = claimKey c1) :=
    List.mem_filter.mpr ⟨hc1p, by simp⟩
  have hc2g : c2 ∈ (cs.filter participatesInConflicts).filter
      (fun c => claimKey c = claimKey c1) :=
    List.mem_filter.mpr ⟨hc2p, by simp [hkey.symm]⟩
  refine ⟨(cs.filter participatesInConflicts).filter
      (fun c => claimKey c = claimKey c1), ?_, hc1g, hc2g⟩
  unfold findConflicts
  apply List.mem_filter.mpr
  constructor
  · apply List.mem_map.mpr
    refine ⟨claimKey c1, ?_, rfl⟩
    rw [mem_sortBy, mem_dedupStr]
    exact List.mem_map.mpr ⟨c1, hc1p, rfl⟩
  · have := one_lt_length_of_two_mem hc1g hc2g hne
    simpa using this

/-- C4 (amended): whenever the conflict resolver succeeds on an artifact
whose claim ids are pairwise distinct, no two surviving claims share a
`(subject, action, resource)` key while having opposing Permission and
Prohibition types. -/
theorem resolver_no_opposing_survivors
    (sources : List (String × AuthoritySource)) (a a' : AuthorityArtifact)
    (hnodup : (a.claims.map (fun c => c.id)).Nodup)
    (hok : ResolveConflicts sources false a = .ok a')
    (c1 c2 : Claim) (h1 : c1 ∈ a'.claims) (h2 : c2 ∈ a'.claims)
    (hs : c1.subject = c2.subject) (hact : c1.action = c2.action)
    (hres : c1.resource = c2.resource)
    (ht1 : c1.type_ = "permission") (ht2 : c2.type_ = "prohibition") :
    False := by
  have ha : a' = resolvedArtifact sources a := by
    have h := resolveConflicts_not_cancelled sources a
    rw [hok] at h
    exact (Except.ok.inj h)
  subst ha
  have hclaims : (resolvedArtifact sources a).claims =
      (findConflicts (applySupersessions (applyRevocations a)).claims).foldl
        (resolveStep sources (applySupersessions (applyRevocations a)).graph)
        (applySupersessions (applyRevocations a)).claims := rfl
  rw [hclaims] at h1 h2
  have hcs0nodup :
      ((applySupersessions (applyRevocations a)).claims.map
        (fun c => c.id)).Nodup :=
    nodup_ids_filter _ _ (nodup_ids_filter _ _ hnodup)
  obtain ⟨hc1cs, hkeep1⟩ := (mem_foldl_resolveStep _ _ _ _ _).mp h1
  obtain ⟨hc2cs, hkeep2⟩ := (mem_foldl_resolveStep _ _ _ _ _).mp h2
  have hne : c1 ≠ c2 := by
    intro h
    rw [h, ht2] at ht1
    exact absurd ht1 (by decide)
  have hp1 : participatesInConflicts c1 = true := by
    simp [participatesInConflicts, ht1]
  have hp2 : participatesInConflicts c2 = true := by
    simp [participatesInConflicts, ht2]
  have hkey : claimKey c1 = claimKey c2 := by
    unfold claimKey
    rw [hs, hact, hres]
  obtain ⟨g, hg, hc1g, hc2g⟩ :=
    findConflicts_covers _ c1 c2 hc1cs hc2cs hne hp1 hp2 hkey
  obtain ⟨w, hw⟩ :
      ∃ w, applyPrecedence sources
        (applySupersessions (applyRevocations a)).graph g = some w := by
    have hgne := findConflicts_groups_ne_nil _ g hg
    match g, hgne with
    | c :: gs, _ => exact ⟨_, rfl⟩
  have e1 : c1.id = w.id :=
    keep_id_eq_winner _ _ g w c1 hw (hkeep1 g hg) ⟨c1, hc1g, rfl⟩
  have e2 : c2.id = w.id :=
    keep_id_eq_winner _ _ g w c2 hw (hkeep2 g hg) ⟨c2, hc2g, rfl⟩
  exact hne (List.inj_on_of_nodup_map hcs0nodup hc1cs hc2cs (e1.trans e2.symm))

/-- A Permission claim with id `"x"`. -/
def c4PermX : Claim :=
  { id := "x", type_ := "permission", subject := "u", action := "a",
    resource := "r", scope := c1ScopeEmpty, conditions := none,
    sourceId := "s" }

/-- A Prohibition claim with the same id `"x"` and the same key. -/
def c4ProX : Claim :=
  { id := "x", type_ := "prohibition", subject := "u", action := "a",
    resource := "r", scope := c1ScopeEmpty, conditions := none,
    sourceId := "s" }

/-- An artifact carrying both duplicate-id claims (nothing in the pipeline
rejects duplicate claim ids). -/
def c4DupArt : AuthorityArtifact :=
  { id := "a4", sourceId := "s", claims := [c4PermX, c4ProX],
    graph := buildGraph [c4PermX, c4ProX], generatedAt := 0 }

/-- C4 counterexample on the literal claim: with duplicate claim ids the
resolver succeeds yet keeps both an opposing Permission and Prohibition on
the same `(subject, action, resource)` key — the losing-id set is computed
by id, and both members share the winner's id. -/
theorem resolver_keeps_opposing_pair_on_duplicate_ids :
    ResolveConflicts [] false c4DupArt = .ok (resolvedArtifact [] c4DupArt) ∧
    (resolvedArtifact [] c4DupArt).claims = [c4PermX, c4ProX] ∧
    c4PermX.type_ = "permission" ∧ c4ProX.type_ = "prohibition" ∧
    c4PermX.subject = c4ProX.subject ∧ c4PermX.action = c4ProX.action ∧
    c4PermX.resource = c4ProX.resource :=
  ⟨resolveConflicts_not_cancelled [] c4DupArt, rfl, rfl, rfl, rfl, rfl, rfl⟩

/-- A Prohibition claim with a distinct id `"y"` on the same key. -/
def c4ProY : Claim :=
  { id := "y", type_ := "prohibition", subject := "u", action := "a",
    resource := "r", scope := c1ScopeEmpty, conditions := none,
    sourceId := "s" }

/-- An artifact with distinct claim ids and an opposing pair on one key. -/
def c4GoodArt : AuthorityArtifact :=
  { id := "a4g", sourceId := "s", claims := [c4PermX, c4ProY],
    graph := buildGraph [c4PermX, c4ProY], generatedAt := 0 }

theorem resolver_no_opposing_survivors_witness :
    ((c4GoodArt.claims.map (fun c => c.id)).Nodup) ∧
    ∀ c1 ∈ (resolvedArtifact [] c4GoodArt).claims,
      ∀ c2 ∈ (resolvedArtifact [] c4GoodArt).claims,
      c1.subject = c2.subject → c1.action = c2.action →
      c1.resource = c2.resource →
      c1.type_ = "permission" → c2.type_ = "prohibition" → False :=
  ⟨by decide,
   fun c1 h1 c2 h2 hs hact hres ht1 ht2 =>
     resolver_no_opposing_survivors [] c4GoodArt (resolvedArtifact [] c4GoodArt)
       (by decide) (resolveConflicts_not_cancelled [] c4GoodArt)
       c1 c2 h1 h2 hs hact hres ht1 ht2⟩

theorem mem_foldl_append {α β : Type} (f : α → List β) (l : List α)
    (init : List β) (b : β) :
    b ∈ l.foldl (fun acc x => acc ++ f x) init ↔
      b ∈ init ∨ ∃ x ∈ l, b ∈ f x := by
  induction l generalizing init with
  | nil => simp
  | cons x xs ih =>
    rw [List.foldl_cons, ih]
    simp only [List.mem_append, List.mem_cons]
    constructor
    · rintro ((hb | hb) | ⟨y, hy, hb⟩)
      · exact Or.inl hb
      · exact Or.inr ⟨x, Or.inl rfl, hb⟩
      · exact Or.inr ⟨y, Or.inr hy, hb⟩
    · rintro (hb | ⟨y, (rfl | hy), hb⟩)
      · exact Or.inl (Or.inl hb)
      · exact Or.inl (Or.inr hb)
      · exact Or.inr ⟨y, hy, hb⟩

theorem mapLookup_foldl_insert_isSome_iff (cs : List Claim)
    (m : List (String × Claim)) (k : String) :
    (mapLookup (cs.foldl (fun m c => mapInsert m c.id c) m) k).isSome = true ↔
      ((mapLookup m k).isSome = true ∨ k ∈ cs.map (fun c => c.id)) := by
  induction cs generalizing m with
  | nil => simp
  | cons c rest ih =>
    rw [List.foldl_cons, ih]
    rw [mapLookup_insert_isSome]
    simp only [Bool.or_eq_true, decide_eq_true_eq, List.map_cons, List.mem_cons]
    tauto

theorem mapLookup_buildNodes_isSome (cs : List Claim) (k : String) :
    (mapLookup (buildNodes cs) k).isSome = true ↔ k ∈ cs.map (fun c => c.id) := by
  unfold buildNodes
  rw [mapLookup_foldl_insert_isSome_iff]
  simp [mapLookup]

theorem mem_edges_buildGraph (cs : List Claim) (e : Edge) :
    e ∈ (buildGraph cs).edges ↔ ∃ c ∈ cs, e ∈ edgesOfClaim (buildNodes cs) c := by
  unfold buildGraph
  dsimp only
  rw [mem_sortBy, mem_foldl_append]
  simp

theorem condStr_conditions_isSome (c : Claim) (k t : String)
    (h : condStr c k = some t) : ∃ d, c.conditions = some d := by
  unfold condStr at h
  cases hc : c.conditions with
  | none => rw [hc] at h; exact absurd h (by simp)
  | some d => exact ⟨d, rfl⟩

theorem edgesOfClaim_revokes (nodes : List (String × Claim)) (c : Claim)
    (e : Edge) (he : e ∈ edgesOfClaim nodes c)
    (ht : e.edgeType = "revokes") :
    condStr c "revokes" = some e.toId ∧
      (mapLookup nodes e.toId).isSome = true := by
  unfold edgesOfClaim at he
  cases hcond : c.conditions with
  | none => rw [hcond] at he; simp at he
  | some d =>
    rw [hcond] at he
    dsimp only at he
    rcases List.mem_append.mp he with hAB | hC
    · rcases List.mem_append.mp hAB with hA | hB
      · exfalso
        cases hd : condStr c "delegates_to" with
        | none => simp [hd] at hA
        | some t =>
          simp only [hd] at hA
          cases hl : (mapLookup nodes t).isSome with
          | false => simp [hl] at hA
          | true =>
            simp only [hl, if_true, List.mem_singleton] at hA
            subst hA
            simp at ht
      · cases hd : condStr c "revokes" with
        | none => simp [hd] at hB
        | some t =>
          simp only [hd] at hB
          cases hl : (mapLookup nodes t).isSome with
          | false => simp [hl] at hB
          | true =>
            simp only [hl, if_true, List.mem_singleton] at hB
            subst hB
            exact ⟨rfl, hl⟩
    · exfalso
      cases hd : condStr c "supersedes" with
      | none => simp [hd] at hC
      | some t =>
        simp only [hd] at hC
        cases hl : (mapLookup nodes t).isSome with
        | false => simp [hl] at hC
        | true =>
          simp only [hl, if_true, List.mem_singleton] at hC
          subst hC
          simp at ht

theorem edgesOfClaim_supersedes (nodes : List (String × Claim)) (c : Claim)
    (e : Edge) (he : e ∈ edgesOfClaim nodes c)
    (ht : e.edgeType = "supersedes") :
    condStr c "supersedes" = some e.toId ∧
      (mapLookup nodes e.toId).isSome = true := by
  unfold edgesOfClaim at he
  cases hcond : c.conditions with
  | none => rw [hcond] at he; simp at he
  | some d =>
    rw [hcond] at he
    dsimp only at he
    rcases List.mem_append.mp he with hAB | hC
    · exfalso
      rcases List.mem_append.mp hAB with hA | hB
      · cases hd : condStr c "delegates_to" with
        | none => simp [hd] at hA
        | some t =>
          simp only [hd] at hA
          cases hl : (mapLookup nodes t).isSome with
          | false => simp [hl] at hA
          | true =>
            simp only [hl, if_true, List.mem_singleton] at hA
            subst hA
            simp at ht
      · cases hd : condStr c "revokes" with
        | none => simp [hd] at hB
        | some t =>
          simp only [hd] at hB
          cases hl : (mapLookup nodes t).isSome with
          | false => simp [hl] at hB
          | true =>
            simp only [hl, if_true, List.mem_singleton] at hB
            subst hB
            simp at ht
    · cases hd : condStr c "supersedes" with
      | none => simp [hd] at hC
      | some t =>
        simp only [hd] at hC
        cases hl : (mapLookup nodes t).isSome with
        | false => simp [hl] at hC
        | true =>
          simp only [hl, if_true, List.mem_singleton] at hC
          subst hC
          exact ⟨rfl, hl⟩

theorem edgesOfClaim_revokes_mem (nodes : List (String × Claim)) (c : Claim)
    (t : String) (hc : condStr c "revokes" = some t)
    (hl : (mapLookup nodes t).isSome = true) :
    ({ fromId := c.id, toId := t, edgeType := "revokes" } : Edge) ∈
      edgesOfClaim nodes c := by
  obtain ⟨d, hd⟩ := condStr_conditions_isSome c "revokes" t hc
  unfold edgesOfClaim
  rw [hd]
  dsimp only
  rw [hc]
  dsimp only
  rw [hl]
  simp

theorem edgesOfClaim_supersedes_mem (nodes : List (String × Claim)) (c : Claim)
    (t : String) (hc : condStr c "supersedes" = some t)
    (hl : (mapLookup nodes t).isSome = true) :
    ({ fromId := c.id, toId := t, edgeType := "supersedes" } : Edge) ∈
      edgesOfClaim nodes c := by
  obtain ⟨d, hd⟩ := condStr_conditions_isSome c "supersedes" t hc
  unfold edgesOfClaim
  rw [hd]
  dsimp only
  rw [hc]
  dsimp only
  rw [hl]
  simp

theorem applyRevocations_eq_self (a : AuthorityArtifact)
    (h : ∀ e ∈ a.graph.edges, ¬ e.edgeType = "revokes") :
    applyRevocations a = a := by
  unfold applyRevocations
  have hfil : a.graph.edges.filter (fun e => e.edgeType = "revokes") = [] := by
    rw [List.filter_eq_nil_iff]
    intro e he
    simpa using h e he
  rw [hfil]
  simp [List.contains]

theorem applySupersessions_eq_self (a : AuthorityArtifact)
    (h : ∀ e ∈ a.graph.edges, ¬ e.edgeType = "supersedes") :
    applySupersessions a = a := by
  unfold applySupersessions
  have hfil : a.graph.edges.filter (fun e => e.edgeType = "supersedes") = [] := by
    rw [List.filter_eq_nil_iff]
    intro e he
    simpa using h e he
  rw [hfil]
  simp [List.contains]

/-- A fold that at each step keeps either the accumulator or the current
element stays inside the initial-plus-elements pool. -/
theorem foldl_pick_mem {α : Type} (step : α → α → α)
    (hstep : ∀ b x, step b x = x ∨ step b x = b) (b : α) (l : List α) :
    l.foldl step b ∈ b :: l := by
  induction l generalizing b with
  | nil => simp
  | cons x xs ih =>
    rw [List.foldl_cons]
    rcases List.mem_cons.mp (ih (step b x)) with h | h
    · rcases hstep b x with hs | hs
      · rw [hs] at h ⊢
        rw [h]
        simp
      · rw [hs] at h ⊢
        rw [h]
        simp
    · exact List.mem_cons_of_mem _ (List.mem_cons_of_mem _ h)

/-- The winner `applyPrecedence` selects is a member of the group. -/
theorem applyPrecedence_mem (sources : List (String × AuthoritySource))
    (graph : AuthorityGraph) (g : List Claim) (w : Claim)
    (h : applyPrecedence sources graph g = some w) : w ∈ g := by
  match g with
  | [] => simp [applyPrecedence] at h
  | c :: rest =>
    simp only [applyPrecedence, Option.some.injEq] at h
    have hm := foldl_pick_mem
      (fun best x =>
        if comparePrecedenceKeys
            (precedenceKey (lookupSource sources x.sourceId) x graph)
            (precedenceKey (lookupSource sources best.sourceId) best graph) < 0
        then x else best)
      (fun b x => by
        by_cases hc : comparePrecedenceKeys
            (precedenceKey (lookupSource sources x.sourceId) x graph)
            (precedenceKey (lookupSource sources b.sourceId) b graph) < 0
        · exact Or.inl (if_pos hc)
        · exact Or.inr (if_neg hc))
      c rest
    exact h ▸ hm

/-- When every group's losing-id set is empty, the conflict fold leaves the
claim list untouched. -/
theorem foldl_resolveStep_id (sources : List (String × AuthoritySource))
    (graph : AuthorityGraph) (gs : List (List Claim)) (cs : List Claim)
    (h : ∀ g ∈ gs, ∀ w, applyPrecedence sources graph g = some w →
      losingIds g w = []) :
    gs.foldl (resolveStep sources graph) cs = cs := by
  induction gs with
  | nil => rfl
  | cons g rest ih =>
    rw [List.foldl_cons]
    have hstep : resolveStep sources graph cs g = cs := by
      unfold resolveStep
      cases hw : applyPrecedence sources graph g with
      | none => rfl
      | some w =>
        dsimp only
        rw [h g (List.mem_cons_self g rest) w hw]
        simp [List.contains]
    rw [hstep]
    exact ih (fun g' hg' w hw => h g' (List.mem_cons_of_mem _ hg') w hw)

/-- Any two surviving same-key participating claims of one resolver pass
carry the same id (without any uniqueness assumption on ids: if they are
distinct claims, both sat in one conflict group and both kept ids equal to
that group's winner's id). -/
theorem survivors_same_key_id_eq
    (sources : List (String × AuthoritySource)) (graph : AuthorityGraph)
    (cs0 : List Claim) (x y : Claim)
    (hx : x ∈ (findConflicts cs0).foldl (resolveStep sources graph) cs0)
    (hy : y ∈ (findConflicts cs0).foldl (resolveStep sources graph) cs0)
    (hpx : participatesInConflicts x = true)
    (hpy : participatesInConflicts y = true)
    (hkey : claimKey x = claimKey y) : x.id = y.id := by
  by_cases hxy : x = y
  · rw [hxy]
  · obtain ⟨hxcs, hkeepx⟩ := (mem_foldl_resolveStep _ _ _ _ _).mp hx
    obtain ⟨hycs, hkeepy⟩ := (mem_foldl_resolveStep _ _ _ _ _).mp hy
    obtain ⟨g, hg, hxg, hyg⟩ :=
      findConflicts_covers _ x y hxcs hycs hxy hpx hpy hkey
    obtain ⟨w, hw⟩ : ∃ w, applyPrecedence sources graph g = some w := by
      have hgne := findConflicts_groups_ne_nil _ g hg
      match g, hgne with
      | c :: gs, _ => exact ⟨_, rfl⟩
    have e1 : x.id = w.id :=
      keep_id_eq_winner _ _ g w x hw (hkeepx g hg) ⟨x, hxg, rfl⟩
    have e2 : y.id = w.id :=
      keep_id_eq_winner _ _ g w y hw (hkeepy g hg) ⟨y, hyg, rfl⟩
    exact e1.trans e2.symm

set_option maxHeartbeats 1000000 in
/-- C8 (amended): on an artifact whose graph is the normalizer's graph of
its claims, the conflict resolver is idempotent — a second run succeeds and
returns the same claims.  No uniqueness of claim ids is needed: a rebuilt
revokes/supersedes edge cannot target a survivor (its target was already
dropped in the first run), and every second-run conflict group consists of
claims sharing its winner's id, so nothing further is dropped. -/
theorem resolver_idempotent_on_normalized
    (sources : List (String × AuthoritySource)) (a a' : AuthorityArtifact)
    (hgraph : a.graph = buildGraph a.claims)
    (hok : ResolveConflicts sources false a = .ok a') :
    ∃ a'', ResolveConflicts sources false a' = .ok a'' ∧
      a''.claims = a'.claims := by
  have ha : a' = resolvedArtifact sources a := by
    have h := resolveConflicts_not_cancelled sources a
    rw [hok] at h
    exact Except.ok.inj h
  subst ha
  refine ⟨resolvedArtifact sources (resolvedArtifact sources a),
    resolveConflicts_not_cancelled sources _, ?_⟩
  have hSdef : (resolvedArtifact sources a).claims =
      (findConflicts (applySupersessions (applyRevocations a)).claims).foldl
        (resolveStep sources (applySupersessions (applyRevocations a)).graph)
        (applySupersessions (applyRevocations a)).claims := rfl
  have hGdef : (resolvedArtifact sources a).graph =
      buildGraph (resolvedArtifact sources a).claims := rfl
  have hSsub : ∀ {c : Claim}, c ∈ (resolvedArtifact sources a).claims →
      c ∈ (applySupersessions (applyRevocations a)).claims := by
    intro c hc
    rw [hSdef] at hc
    exact ((mem_foldl_resolveStep _ _ _ _ _).mp hc).1
  have hRevSub : ∀ {c : Claim},
      c ∈ (applySupersessions (applyRevocations a)).claims →
      c ∈ (applyRevocations a).claims := by
    intro c hc
    exact (List.mem_filter.mp hc).1
  have hRevMem : ∀ {c : Claim}, c ∈ (applyRevocations a).claims →
      c ∈ a.claims ∧
        ((a.graph.edges.filter (fun e => e.edgeType = "revokes")).map
          (fun e => e.toId)).contains c.id = false := by
    intro c hc
    have h := List.mem_filter.mp hc
    refine ⟨h.1, ?_⟩
    have h2 := h.2
    simp only [Bool.not_eq_true'] at h2
    exact h2
  have hSupMem : ∀ {c : Claim},
      c ∈ (applySupersessions (applyRevocations a)).claims →
      ((a.graph.edges.filter (fun e => e.edgeType = "supersedes")).map
        (fun e => e.toId)).contains c.id = false := by
    intro c hc
    have h2 := (List.mem_filter.mp hc).2
    simp only [Bool.not_eq_true'] at h2
    exact h2
  have hNoRevTarget : ∀ {c : Claim},
      c ∈ (resolvedArtifact sources a).claims →
      ∀ t, condStr c "revokes" = some t →
      ¬ (t ∈ (resolvedArtifact sources a).claims.map (fun c => c.id)) := by
    intro c hc t hct hmem
    obtain ⟨d, hdS, hdid⟩ := List.mem_map.mp hmem
    have hcA : c ∈ a.claims := (hRevMem (hRevSub (hSsub hc))).1
    have hdRev := hRevMem (hRevSub (hSsub hdS))
    have htids : t ∈ a.claims.map (fun c => c.id) :=
      List.mem_map.mpr ⟨d, hdRev.1, hdid⟩
    have hedge : ({ fromId := c.id, toId := t, edgeType := "revokes" } : Edge) ∈
        (buildGraph a.claims).edges := by
      rw [mem_edges_buildGraph]
      exact ⟨c, hcA, edgesOfClaim_revokes_mem _ c t hct
        ((mapLookup_buildNodes_isSome a.claims t).mpr htids)⟩
    have htarget : t ∈ ((a.graph.edges.filter
        (fun e => e.edgeType = "revokes")).map (fun e => e.toId)) := by
      rw [hgraph]
      exact List.mem_map.mpr ⟨_, List.mem_filter.mpr ⟨hedge, by simp⟩, rfl⟩
    rw [← hdid] at htarget
    have hcontains : ((a.graph.edges.filter
        (fun e => e.edgeType = "revokes")).map (fun e => e.toId)).contains
        d.id = true := by
      simpa using htarget
    rw [hdRev.2] at hcontains
    exact absurd hcontains (by decide)
  have hNoSupTarget : ∀ {c : Claim},
      c ∈ (resolvedArtifact sources a).claims →
      ∀ t, condStr c "supersedes" = some t →
      ¬ (t ∈ (resolvedArtifact sources a).claims.map (fun c => c.id)) := by
    intro c hc t hct hmem
    obtain ⟨d, hdS, hdid⟩ := List.mem_map.mp hmem
    have hcA : c ∈ a.claims := (hRevMem (hRevSub (hSsub hc))).1
    have hdSup := hSupMem (hSsub hdS)
    have hdA : d ∈ a.claims := (hRevMem (hRevSub (hSsub hdS))).1
    have htids : t ∈ a.claims.map (fun c => c.id) :=
      List.mem_map.mpr ⟨d, hdA, hdid⟩
    have hedge : ({ fromId := c.id, toId := t, edgeType := "supersedes" } : Edge) ∈
        (buildGraph a.claims).edges := by
      rw [mem_edges_buildGraph]
      exact ⟨c, hcA, edgesOfClaim_supersedes_mem _ c t hct
        ((mapLookup_buildNodes_isSome a.claims t).mpr htids)⟩
    have htarget : t ∈ ((a.graph.edges.filter
        (fun e => e.edgeType = "supersedes")).map (fun e => e.toId)) := by
      rw [hgraph]
      exact List.mem_map.mpr ⟨_, List.mem_filter.mpr ⟨hedge, by simp⟩, rfl⟩
    rw [← hdid] at htarget
    have hcontains : ((a.graph.edges.filter
        (fun e => e.edgeType = "supersedes")).map (fun e => e.toId)).contains
        d.id = true := by
      simpa using htarget
    rw [hdSup] at hcontains
    exact absurd hcontains (by decide)
  have hNoRevEdges : ∀ e ∈ (resolvedArtifact sources a).graph.edges,
      ¬ e.edgeType = "revokes" := by
    intro e he ht
    rw [hGdef, mem_edges_buildGraph] at he
    obtain ⟨c, hcS, hce⟩ := he
    obtain ⟨hcond, hlook⟩ := edgesOfClaim_revokes _ c e hce ht
    exact hNoRevTarget hcS e.toId hcond
      ((mapLookup_buildNodes_isSome _ _).mp hlook)
  have hNoSupEdges : ∀ e ∈ (resolvedArtifact sources a).graph.edges,
      ¬ e.edgeType = "supersedes" := by
    intro e he ht
    rw [hGdef, mem_edges_buildGraph] at he
    obtain ⟨c, hcS, hce⟩ := he
    obtain ⟨hcond, hlook⟩ := edgesOfClaim_supersedes _ c e hce ht
    exact hNoSupTarget hcS e.toId hcond
      ((mapLookup_buildNodes_isSome _ _).mp hlook)
  have hGroupsTrivial : ∀ g ∈ findConflicts (resolvedArtifact sources a).claims,
      ∀ w, applyPrecedence sources (resolvedArtifact sources a).graph g =
        some w →
      losingIds g w = [] := by
    intro g hg w hw
    have hwg : w ∈ g := applyPrecedence_mem _ _ g w hw
    unfold findConflicts at hg
    obtain ⟨hmap, _⟩ := List.mem_filter.mp hg
    obtain ⟨k, _, hgk⟩ := List.mem_map.mp hmap
    have hfacts : ∀ {x : Claim}, x ∈ g →
        x ∈ (resolvedArtifact sources a).claims ∧
        participatesInConflicts x = true ∧ claimKey x = k := by
      intro x hxg
      rw [← hgk] at hxg
      obtain ⟨hxp, hxk⟩ := List.mem_filter.mp hxg
      obtain ⟨hxS, hxpart⟩ := List.mem_filter.mp hxp
      exact ⟨hxS, hxpart, by simpa using hxk⟩
    unfold losingIds
    have hfil : g.filter (fun x => x.id ≠ w.id) = [] := by
      rw [List.filter_eq_nil_iff]
      intro x hxg
      obtain ⟨hxS, hxpart, hxk⟩ := hfacts hxg
      obtain ⟨hwS, hwpart, hwk⟩ := hfacts hwg
      have hkeyxw : claimKey x = claimKey w := by rw [hxk, hwk]
      rw [hSdef] at hxS hwS
      have : x.id = w.id :=
        survivors_same_key_id_eq sources
          (applySupersessions (applyRevocations a)).graph
          (applySupersessions (applyRevocations a)).claims
          x w hxS hwS hxpart hwpart hkeyxw
      simp [this]
    rw [hfil]
    rfl
  have hrev2 : applyRevocations (resolvedArtifact sources a) =
      resolvedArtifact sources a :=
    applyRevocations_eq_self _ hNoRevEdges
  have hsup2 : applySupersessions (resolvedArtifact sources a) =
      resolvedArtifact sources a :=
    applySupersessions_eq_self _ hNoSupEdges
  have houter : (resolvedArtifact sources (resolvedArtifact sources a)).claims =
      (findConflicts (applySupersessions (applyRevocations
        (resolvedArtifact sources a))).claims).foldl
        (resolveStep sources (applySupersessions (applyRevocations
          (resolvedArtifact sources a))).graph)
        (applySupersessions (applyRevocations
          (resolvedArtifact sources a))).claims := rfl
  rw [houter, hrev2, hsup2]
  exact foldl_resolveStep_id sources (resolvedArtifact sources a).graph _ _
    hGroupsTrivial

/-- An obligation claim whose conditions revoke `c8ClaimB`. -/
def c8ClaimA : Claim :=
  { id := "cA", type_ := "obligation", subject := "u", action := "act",
    resource := "r1", scope := c1ScopeEmpty,
    conditions := some [("revokes", .vstr "cB")], sourceId := "s" }

/-- A plain obligation claim, the revocation target. -/
def c8ClaimB : Claim :=
  { id := "cB", type_ := "obligation", subject := "u", action := "act",
    resource := "r2", scope := c1ScopeEmpty, conditions := none,
    sourceId := "s" }

/-- An artifact whose graph carries NO edges, although `c8ClaimA`'s
conditions reference `c8ClaimB`; the resolver rebuilds the graph from the
conditions, so the revokes edge appears only in its output. -/
def c8LooseArt : AuthorityArtifact :=
  { id := "a8", sourceId := "s", claims := [c8ClaimA, c8ClaimB],
    graph := { nodes := some [("cA", c8ClaimA), ("cB", c8ClaimB)],
               edges := [] },
    generatedAt := 0 }

/-- C8 counterexample on the literal claim: the resolver succeeds on
`c8LooseArt` keeping both claims (its input graph has no revokes edge), but
rebuilds the graph from the claims' conditions — so the second run sees the
revokes edge and drops `cB`, changing the claim set. -/
theorem resolver_not_idempotent_in_general :
    ResolveConflicts [] false c8LooseArt = .ok (resolvedArtifact [] c8LooseArt) ∧
    (resolvedArtifact [] c8LooseArt).claims.map (fun c => c.id) = ["cA", "cB"] ∧
    ResolveConflicts [] false (resolvedArtifact [] c8LooseArt) =
      .ok (resolvedArtifact [] (resolvedArtifact [] c8LooseArt)) ∧
    (resolvedArtifact [] (resolvedArtifact [] c8LooseArt)).claims.map
      (fun c => c.id) = ["cA"] ∧
    (["cA"] : List String) ≠ ["cA", "cB"] :=
  ⟨resolveConflicts_not_cancelled [] c8LooseArt, rfl,
   resolveConflicts_not_cancelled [] (resolvedArtifact [] c8LooseArt), rfl,
   by decide⟩

/-- The same claims with the graph the normalizer would build for them. -/
def c8NormArt : AuthorityArtifact :=
  { id := "a8n", sourceId := "s", claims := [c8ClaimA, c8ClaimB],
    graph := buildGraph [c8ClaimA, c8ClaimB], generatedAt := 0 }

theorem resolver_idempotent_on_normalized_witness :
    ∃ a'', ResolveConflicts [] false (resolvedArtifact [] c8NormArt) =
        .ok a'' ∧
      a''.claims = (resolvedArtifact [] c8NormArt).claims :=
  resolver_idempotent_on_normalized [] c8NormArt
    (resolvedArtifact [] c8NormArt) rfl
    (resolveConflicts_not_cancelled [] c8NormArt)
